import Mathlib

/-!
Verification of the workout-cli data layer against its specification.

The definitions below are a shallow embedding of the TypeScript sources:
`src/types.ts` (the zod data model), `src/data/storage.ts` (the `Storage`
class and the profile helpers), and `src/commands/session.ts`
(`calculateStats` and the weight resolution of the `log` command).
JavaScript numbers are modelled as exact rationals (`Rat`); `NaN` is
modelled as `none` in `Option Rat` where it can arise.  File-system state
is modelled explicitly: the shared exercise library is a list, a profile's
workouts directory is an association list keyed by file name, the profiles
directory is an association list of directory names.
-/

namespace WorkoutCLI

/-! ## Data model (src/types.ts) -/

/-- Source: `ExerciseType = z.enum(['compound', 'isolation'])`. -/
inductive ExerciseType where
  | compound
  | isolation
deriving DecidableEq, Repr

/-- Source: `Equipment = z.enum([...])`. -/
inductive Equipment where
  | barbell
  | dumbbell
  | cable
  | machine
  | bodyweight
  | kettlebell
  | band
  | other
deriving DecidableEq, Repr

/-- Source: `WeightInput = z.enum(['total', 'per-side'])`. -/
inductive WeightInput where
  | total
  | perSide
deriving DecidableEq, Repr

/-- The sixteen muscle-group tags of `MuscleGroup = z.enum([...])`.
Muscle tags are carried as raw strings (their JSON runtime form), so that
schema validation is observable: see `exerciseSchemaValid`. -/
def muscleGroups : List String :=
  ["chest", "back", "shoulders", "biceps", "triceps", "forearms", "quads",
   "hamstrings", "glutes", "calves", "abs", "traps", "lats", "rear-delts",
   "side-delts", "front-delts"]

/-- Source: `Exercise` record (`src/types.ts`).  `muscles` holds the raw strings of
the JSON value; after a successful `Exercise.parse` each is a member of
`muscleGroups`. -/
structure Exercise where
  id : String
  name : String
  aliases : List String
  muscles : List String
  type : ExerciseType
  equipment : Equipment
  weightInput : WeightInput
  notes : Option String
deriving DecidableEq, Repr

/-- The runtime checks of the zod `Exercise` schema that the TypeScript
types do not already impose: each muscle tag is one of the enumerated
muscle groups. -/
def exerciseSchemaValid (e : Exercise) : Bool :=
  e.muscles.all (fun m => muscleGroups.contains m)

/-- Source: `TemplateExercise` record; `sets` is `z.number().int().positive()`, the
raw number is modelled as an integer with the positivity check kept in
`templateSchemaValid`. -/
structure TemplateExercise where
  exercise : String
  sets : Int
  reps : String
deriving DecidableEq, Repr

/-- Source: `Template` record. -/
structure Template where
  id : String
  name : String
  description : Option String
  exercises : List TemplateExercise
deriving DecidableEq, Repr

/-- The runtime checks of the zod `Template` schema beyond the TypeScript
types: every exercise entry has a positive `sets` count. -/
def templateSchemaValid (t : Template) : Bool :=
  t.exercises.all (fun te => 0 < te.sets)

/-- Source: `SetLog` record: `weight` a number, `reps` a positive integer, `rir`
a nullable integer. -/
structure SetLog where
  weight : Rat
  reps : Nat
  rir : Option Nat
deriving DecidableEq, Repr

/-- Source: `ExerciseLog` record. -/
structure ExerciseLog where
  exercise : String
  sets : List SetLog
  notes : Option String
deriving DecidableEq, Repr

/-- Source: `WorkoutStats` record. -/
structure WorkoutStats where
  totalSets : Nat
  totalVolume : Rat
  musclesWorked : List String
deriving DecidableEq, Repr

/-- Source: `Workout` record. -/
structure Workout where
  id : String
  date : String
  template : Option String
  startTime : String
  endTime : Option String
  exercises : List ExerciseLog
  notes : List String
  stats : Option WorkoutStats
deriving DecidableEq, Repr

/-- Source: `Units = z.enum(['lbs', 'kg'])`. -/
inductive Units where
  | lbs
  | kg
deriving DecidableEq, Repr

/-- Source: `Config` record. -/
structure Config where
  units : Units
  dataDir : String
deriving DecidableEq, Repr

/-! ## Exercise library lookup and update (src/data/storage.ts) -/

/-- Source: `Storage.getExercise` (storage.ts:97-100):
`exercises.find((e) => e.id === id || e.aliases.includes(id))` —
a single pass over the library with the combined predicate. -/
def getExercise (id : String) (exercises : List Exercise) : Option Exercise :=
  exercises.find? (fun e => e.id == id || e.aliases.contains id)

/-- The match predicate of `getExercise`, as a proposition. -/
def exMatches (id : String) (e : Exercise) : Prop :=
  e.id = id ∨ id ∈ e.aliases

instance (id : String) (e : Exercise) : Decidable (exMatches id e) := by
  unfold exMatches; infer_instance

/-- A `Partial<Exercise>` value: each present key replaces the stored
field on shallow merge. -/
structure ExerciseUpdate where
  id : Option String := none
  name : Option String := none
  aliases : Option (List String) := none
  muscles : Option (List String) := none
  type : Option ExerciseType := none
  equipment : Option Equipment := none
  weightInput : Option WeightInput := none
  notes : Option (Option String) := none
deriving DecidableEq, Repr

/-- The spread `{ ...exercises[index], ...updates }` of `updateExercise`. -/
def applyExerciseUpdate (u : ExerciseUpdate) (e : Exercise) : Exercise :=
  { id := u.id.getD e.id
    name := u.name.getD e.name
    aliases := u.aliases.getD e.aliases
    muscles := u.muscles.getD e.muscles
    type := u.type.getD e.type
    equipment := u.equipment.getD e.equipment
    weightInput := u.weightInput.getD e.weightInput
    notes := u.notes.getD e.notes }

/-- Errors thrown by the storage layer. -/
inductive StoreError where
  | notFound
  | alreadyExists
  | schemaValidation
deriving DecidableEq, Repr

/-- Source: `Storage.updateExercise` (storage.ts:112-120): find by primary id
(`findIndex((e) => e.id === id)`), throw when absent, otherwise replace the
slot with the shallow merge.  No call to `Exercise.parse` is made: the
merged record is saved as-is. -/
def updateExercise (id : String) (u : ExerciseUpdate) :
    List Exercise → Except StoreError (List Exercise)
  | [] => .error .notFound
  | e :: rest =>
    if e.id = id then
      .ok (applyExerciseUpdate u e :: rest)
    else
      (updateExercise id u rest).map (fun r => e :: r)

/-- A `Partial<Template>` value. -/
structure TemplateUpdate where
  id : Option String := none
  name : Option String := none
  description : Option (Option String) := none
  exercises : Option (List TemplateExercise) := none
deriving DecidableEq, Repr

/-- The spread `{ ...templates[index], ...updates }` of `updateTemplate`. -/
def applyTemplateUpdate (u : TemplateUpdate) (t : Template) : Template :=
  { id := u.id.getD t.id
    name := u.name.getD t.name
    description := u.description.getD t.description
    exercises := u.exercises.getD t.exercises }

/-- Source: `Storage.updateTemplate` (storage.ts:163-171): find by id, throw when
absent, otherwise `Template.parse({ ...templates[index], ...updates })` —
the merged record is revalidated through the full schema before saving. -/
def updateTemplate (id : String) (u : TemplateUpdate) :
    List Template → Except StoreError (List Template)
  | [] => .error .notFound
  | t :: rest =>
    if t.id = id then
      let merged := applyTemplateUpdate u t
      if templateSchemaValid merged then
        .ok (merged :: rest)
      else
        .error .schemaValidation
    else
      (updateTemplate id u rest).map (fun r => t :: r)

/-! ## Per-profile storage state (src/data/storage.ts) -/

/-- The observable state a `Storage` instance operates on: the shared
exercise library (`~/.workout/exercises.json`), and the profile's
`config.json`, `templates.json`, `current.json` and `workouts/` directory.
The workouts directory is an association list from file key (the date the
file is named after) to the parsed workout. -/
structure StoreState where
  config : Config
  exercises : List Exercise
  templates : List Template
  current : Option Workout
  workouts : List (String × Workout)
deriving DecidableEq, Repr

/-- Reading `workouts/{date}.json`: association-list lookup. -/
def lookupWorkout (date : String) : List (String × Workout) → Option Workout
  | [] => none
  | (k, w) :: rest => if k = date then some w else lookupWorkout date rest

/-- Writing `workouts/{date}.json`: replace the entry when the file
exists, create it otherwise. -/
def upsertWorkout (date : String) (w : Workout) :
    List (String × Workout) → List (String × Workout)
  | [] => [(date, w)]
  | (k, v) :: rest =>
    if k = date then (date, w) :: rest else (k, v) :: upsertWorkout date w rest

/-- Source: `Storage.getCurrentWorkout` (storage.ts:183-191). -/
def getCurrentWorkout (s : StoreState) : Option Workout :=
  s.current

/-- Source: `Storage.saveCurrentWorkout` (storage.ts:193-196). -/
def saveCurrentWorkout (w : Workout) (s : StoreState) : StoreState :=
  { s with current := some w }

/-- Source: `Storage.clearCurrentWorkout` (storage.ts:198-203): unlink
`current.json` when it exists. -/
def clearCurrentWorkout (s : StoreState) : StoreState :=
  { s with current := none }

/-- Source: `Storage.finishWorkout` (storage.ts:205-210): write the workout to
`workouts/{workout.date}.json` (overwriting any file already there), then
clear the current session. -/
def finishWorkout (w : Workout) (s : StoreState) : StoreState :=
  clearCurrentWorkout { s with workouts := upsertWorkout w.date w s.workouts }

/-- Source: `Storage.getWorkout` (storage.ts:212-219). -/
def getWorkout (date : String) (s : StoreState) : Option Workout :=
  lookupWorkout date s.workouts

/-- The comparator of `getAllWorkouts`:
`.sort((a, b) => b.date.localeCompare(a.date))` puts larger date strings
first.  On the zero-padded ISO strings the CLI writes, `localeCompare`
agrees with ordinal string comparison. -/
def dateDesc (a b : Workout) : Prop :=
  b.date ≤ a.date

instance : DecidableRel dateDesc := fun a b =>
  inferInstanceAs (Decidable (b.date ≤ a.date))

instance : IsTotal Workout dateDesc :=
  ⟨fun a b => le_total b.date a.date⟩

instance : IsTrans Workout dateDesc :=
  ⟨fun _ _ _ h₁ h₂ => le_trans h₂ h₁⟩

/-- Source: `Storage.getAllWorkouts` (storage.ts:221-234): parse every file of the
workouts directory and sort by date string descending. -/
def getAllWorkouts (s : StoreState) : List Workout :=
  (s.workouts.map Prod.snd).insertionSort dateDesc

/-- Source: `Storage.getLastWorkout` (storage.ts:236-239): `workouts[0] ?? null`. -/
def getLastWorkout (s : StoreState) : Option Workout :=
  (getAllWorkouts s).head?

/-- Source: `Storage.getExerciseHistory` (storage.ts:241-253): walk the sorted
workouts, keeping for each one its first exercise log matching the id. -/
def getExerciseHistory (exerciseId : String) (s : StoreState) :
    List (Workout × ExerciseLog) :=
  (getAllWorkouts s).filterMap (fun w =>
    (w.exercises.find? (fun l => l.exercise == exerciseId)).map (fun l => (w, l)))

/-! ## Workout statistics (src/commands/session.ts, calculateStats) -/

/-- One `musclesSet.add(muscle)` step: a JS `Set` keeps insertion order
and ignores re-insertions. -/
def addMuscle (acc : List String) (m : String) : List String :=
  if m ∈ acc then acc else acc ++ [m]

/-- The body of the `for (const exerciseLog of workout.exercises)` loop of
`calculateStats`: a log whose exercise id does not resolve in the library
is skipped (`if (!exercise) continue`); otherwise its set count, its
volume (doubled for per-side exercises) and its muscle tags are
accumulated. -/
def statsStep (lib : List Exercise) (acc : WorkoutStats) (log : ExerciseLog) :
    WorkoutStats :=
  match getExercise log.exercise lib with
  | none => acc
  | some ex =>
    let multiplier : Rat := if ex.weightInput = WeightInput.perSide then 2 else 1
    { totalSets := acc.totalSets + log.sets.length
      totalVolume :=
        log.sets.foldl (fun v st => v + st.weight * st.reps * multiplier)
          acc.totalVolume
      musclesWorked := ex.muscles.foldl addMuscle acc.musclesWorked }

/-- Source: `calculateStats` (session.ts:14-38). -/
def calculateStats (lib : List Exercise) (w : Workout) : WorkoutStats :=
  w.exercises.foldl (statsStep lib) ⟨0, 0, []⟩

/-! ## The log command's weight resolution (src/commands/session.ts) -/

/-- Decimal value of a digit run. -/
def digitsVal (cs : List Char) : Nat :=
  cs.foldl (fun n c => n * 10 + (c.toNat - 48)) 0

/-- Source: `parseFloat` on the numeral prefixes the CLI deals in: an optional
sign, then digits with an optional fractional part; `none` models `NaN`
(no digit at all).  Leading whitespace and exponents are outside the
strings the commands pass in and are not modelled. -/
def parseFloatQ (s : String) : Option Rat :=
  let withSign : Rat × List Char :=
    match s.data with
    | '+' :: t => (1, t)
    | '-' :: t => (-1, t)
    | t => (1, t)
  let intDigits := withSign.2.takeWhile Char.isDigit
  let afterInt := withSign.2.drop intDigits.length
  let fracDigits :=
    match afterInt with
    | '.' :: t => t.takeWhile Char.isDigit
    | _ => []
  if intDigits.isEmpty && fracDigits.isEmpty then none
  else
    some (withSign.1 *
      ((digitsVal intDigits : Rat) +
        (digitsVal fracDigits : Rat) / ((10 : Rat) ^ fracDigits.length)))

/-- Source: `s.startsWith(c)` for a one-character prefix: the first character of
the string equals `c`. -/
def startsWithChar (s : String) (c : Char) : Bool :=
  match s.data with
  | [] => false
  | c0 :: _ => c0 == c

/-- The `process.exit(1)` branches of the relative-weight resolution. -/
inductive LogError where
  | noHistory
  | noPreviousSets
deriving DecidableEq, Repr

/-- The weight resolution of the `log` command (session.ts:127-143).
A leading `+` or `-` makes the weight relative: the last set of the most
recent history entry anchors it, and missing history or an empty set list
aborts the command.  The result is `none` exactly when JavaScript would
compute `NaN`. -/
def resolveLogWeight (weightStr : String)
    (history : List (Workout × ExerciseLog)) : Except LogError (Option Rat) :=
  if startsWithChar weightStr '+' || startsWithChar weightStr '-' then
    match history with
    | [] => .error .noHistory
    | (_, lastLog) :: _ =>
      match lastLog.sets.getLast? with
      | none => .error .noPreviousSets
      | some lastSet =>
        .ok ((parseFloatQ weightStr).map (fun off => lastSet.weight + off))
  else
    .ok (parseFloatQ weightStr)

/-- Source: `repsList.map((reps) => ({ weight, reps, rir }))` (session.ts:154-158):
every new set carries the resolved weight. -/
def makeNewSets (weight : Rat) (repsList : List Nat) (rir : Option Nat) :
    List SetLog :=
  repsList.map (fun reps => ⟨weight, reps, rir⟩)

/-! ## Profiles and legacy migration (src/data/profiles.ts) -/

/-- The contents of one profile directory under `~/.workout/profiles/<name>`:
the three per-profile JSON files (present or absent) and the workouts
directory (`none` when the directory itself is absent).  File contents are
opaque blobs. -/
structure ProfileDir where
  config : Option String
  templates : Option String
  current : Option String
  workouts : Option (List (String × String))
deriving DecidableEq, Repr

/-- The file-system state the profile helpers read and write: the legacy
files directly under `~/.workout`, and the profiles directory as an
association list from directory name to contents. -/
structure FsState where
  legacyConfig : Option String
  legacyTemplates : Option String
  legacyCurrent : Option String
  legacyWorkouts : Option (List (String × String))
  profiles : List (String × ProfileDir)
deriving DecidableEq, Repr

/-- Association-list lookup of a profile directory by name. -/
def findProfile (name : String) : List (String × ProfileDir) → Option ProfileDir
  | [] => none
  | (k, d) :: rest => if k = name then some d else findProfile name rest

/-- Replace a profile directory's contents when it exists, create the
directory at the end of the listing otherwise. -/
def upsertProfile (name : String) (d : ProfileDir) :
    List (String × ProfileDir) → List (String × ProfileDir)
  | [] => [(name, d)]
  | (k, v) :: rest =>
    if k = name then (name, d) :: rest else (k, v) :: upsertProfile name d rest

/-- Source: `getProfiles` (profiles.ts:288-297): the directory names under
`profiles/`. -/
def getProfiles (s : FsState) : List String :=
  s.profiles.map Prod.fst

/-- Source: `profileExists` (profiles.ts:299-302). -/
def profileExists (name : String) (s : FsState) : Bool :=
  (findProfile name s.profiles).isSome

/-- A lowercase alphanumeric character. -/
def isLowerAlnum (c : Char) : Bool :=
  ('a' ≤ c && c ≤ 'z') || ('0' ≤ c && c ≤ '9')

/-- The profile-name check
`/^[a-z0-9][a-z0-9-]*[a-z0-9]$|^[a-z0-9]$/` (profiles.ts:305): nonempty,
every character lowercase alphanumeric or hyphen, no hyphen at either
end. -/
def validProfileName (name : String) : Bool :=
  match name.data with
  | [] => false
  | cs =>
    isLowerAlnum cs.headI && isLowerAlnum cs.getLastI &&
      cs.all (fun c => isLowerAlnum c || c = '-')

/-- Errors thrown by the profile helpers. -/
inductive ProfileError where
  | validation
  | alreadyExists
  | notFound
  | lastProfile
  | ambiguous
deriving DecidableEq, Repr

/-- A freshly created profile directory: `mkdirSync` of the profile path
and of its empty `workouts` subdirectory (profiles.ts:313-315). -/
def newProfileDir : ProfileDir :=
  ⟨none, none, none, some []⟩

/-- Source: `createProfile` (profiles.ts:304-316). -/
def createProfile (name : String) (s : FsState) : Except ProfileError FsState :=
  if !validProfileName name then .error .validation
  else if profileExists name s then .error .alreadyExists
  else .ok { s with profiles := s.profiles ++ [(name, newProfileDir)] }

/-- Source: `deleteProfile` (profiles.ts:318-328): existence check, last-profile
check, then `rmSync` of the one directory with that name. -/
def deleteProfile (name : String) (s : FsState) : Except ProfileError FsState :=
  if !profileExists name s then .error .notFound
  else if (getProfiles s).length = 1 then .error .lastProfile
  else .ok { s with profiles := s.profiles.eraseP (fun p => p.1 == name) }

/-- The state after running `deleteProfile`: a thrown error leaves the
file system untouched. -/
def applyDeleteProfile (name : String) (s : FsState) : FsState :=
  match deleteProfile name s with
  | .ok s' => s'
  | .error _ => s

/-- Source: `hasLegacyData` (profiles.ts:330-344): any of `config.json`,
`templates.json`, `current.json` or a `workouts` directory directly under
the base directory. -/
def hasLegacyData (s : FsState) : Bool :=
  s.legacyConfig.isSome || s.legacyTemplates.isSome ||
    s.legacyCurrent.isSome || s.legacyWorkouts.isSome

/-- Source: `migrateLegacyData` (profiles.ts:346-372): no-op without legacy data;
otherwise `mkdirSync(profiles/default, recursive)` (keeping any existing
contents), `renameSync` of each legacy file that exists into the default
profile, and for the workouts directory either a rename of the legacy one
or the creation of an empty one when the default profile has none. -/
def migrateLegacyData (s : FsState) : FsState :=
  if hasLegacyData s then
    let d0 := (findProfile "default" s.profiles).getD ⟨none, none, none, none⟩
    let d1 : ProfileDir :=
      { config := match s.legacyConfig with | some c => some c | none => d0.config
        templates :=
          match s.legacyTemplates with | some c => some c | none => d0.templates
        current :=
          match s.legacyCurrent with | some c => some c | none => d0.current
        workouts :=
          match s.legacyWorkouts with
          | some ws => some ws
          | none => some (d0.workouts.getD []) }
    { legacyConfig := none
      legacyTemplates := none
      legacyCurrent := none
      legacyWorkouts := none
      profiles := upsertProfile "default" d1 s.profiles }
  else s

/-- The `explicitProfile`-absent arm of `resolveProfile`
(profiles.ts:384-399). -/
def resolveProfileAuto (s : FsState) : Except ProfileError (String × FsState) :=
  let profiles := getProfiles s
  if profiles.length = 0 then
    if hasLegacyData s then .ok ("default", migrateLegacyData s)
    else
      match createProfile "default" s with
      | .ok s' => .ok ("default", s')
      | .error e => .error e
  else if profiles.length = 1 then .ok (profiles.headI, s)
  else .error .ambiguous

/-- Source: `resolveProfile` (profiles.ts:374-400).  The result pairs the resolved
profile name with the file-system state after the call; the JavaScript
truthiness test `if (explicitProfile)` sends an empty string down the
automatic arm. -/
def resolveProfile (explicitProfile : Option String) (s : FsState) :
    Except ProfileError (String × FsState) :=
  match explicitProfile with
  | some name =>
    if name ≠ "" then
      if profileExists name s then .ok (name, s) else .error .notFound
    else resolveProfileAuto s
  | none => resolveProfileAuto s

/-! ## Supporting lemmas -/

theorem exMatches_iff (id : String) (e : Exercise) :
    (e.id == id || e.aliases.contains id) = true ↔ exMatches id e := by
  simp [exMatches]

/-- Example exercises used in concrete instantiations. -/
def rowEx : Exercise :=
  ⟨"barbell-row", "Barbell Row", ["row"], ["back", "lats"],
    .compound, .barbell, .total, none⟩

def zercherSquatEx : Exercise :=
  ⟨"zercher-squat", "Zercher Squat", ["zercher"], ["quads", "glutes"],
    .compound, .barbell, .total, none⟩

/-! ## C1 -/

/-- C1 (counterexample): `getExercise` is a single pass with the combined
predicate, so an earlier exercise's alias match shadows a later exercise's
primary-id match.  With the library `[A, B]` where `A` has alias `"b"` and
`B` has primary id `"b"`, looking up `"b"` returns `A`, not the exercise
whose primary id is `"b"`. -/
theorem getExercise_alias_shadows_id :
    getExercise "b"
        [⟨"a", "A", ["b"], ["chest"], .compound, .barbell, .total, none⟩,
         ⟨"b", "B", [], ["back"], .compound, .barbell, .total, none⟩] =
      some ⟨"a", "A", ["b"], ["chest"], .compound, .barbell, .total, none⟩ ∧
    (⟨"b", "B", [], ["back"], .compound, .barbell, .total, none⟩ : Exercise).id
        = "b" ∧
    (⟨"a", "A", ["b"], ["chest"], .compound, .barbell, .total, none⟩ : Exercise)
      ≠ ⟨"b", "B", [], ["back"], .compound, .barbell, .total, none⟩ := by
  refine ⟨?_, rfl, ?_⟩ <;> decide

/-- C1 (amended): `getExercise(s)` returns the first exercise in library
order whose primary id equals `s` or whose aliases contain `s` — a single
pass, with no priority of id matches over alias matches of earlier
exercises — and `undefined` exactly when no exercise matches at all.
Consequently an alias registered on an exercise resolves to that exercise
(the same record as its primary id) precisely when no earlier exercise also
matches the string. -/
theorem getExercise_single_pass (lib : List Exercise) (s : String) :
    (getExercise s lib = none ↔ ∀ e ∈ lib, ¬ exMatches s e) ∧
    (∀ pre e post, lib = pre ++ e :: post → exMatches s e →
      (∀ e' ∈ pre, ¬ exMatches s e') → getExercise s lib = some e) := by
  constructor
  · simp only [getExercise, List.find?_eq_none]
    constructor
    · intro h e he hm
      exact h e he ((exMatches_iff s e).mpr hm)
    · intro h e he hb
      exact h e he ((exMatches_iff s e).mp hb)
  · intro pre e post hlib hm hpre
    subst hlib
    induction pre with
    | nil =>
      exact List.find?_cons_of_pos _ ((exMatches_iff s e).mpr hm)
    | cons e' pre' ih =>
      have hne : ¬ (e'.id == s || e'.aliases.contains s) = true := fun hb =>
        hpre e' (List.mem_cons_self _ _) ((exMatches_iff s e').mp hb)
      have step : getExercise s (e' :: (pre' ++ e :: post)) =
          getExercise s (pre' ++ e :: post) :=
        List.find?_cons_of_neg _ hne
      exact step.trans (ih fun x hx => hpre x (List.mem_cons_of_mem _ hx))

/-- C1 (witness): in a library where `"zercher"` is an alias of the
zercher squat and no earlier exercise matches it, alias lookup returns the
very record that primary-id lookup returns. -/
theorem getExercise_single_pass_witness :
    getExercise "zercher" [rowEx, zercherSquatEx] = some zercherSquatEx ∧
    getExercise "zercher-squat" [rowEx, zercherSquatEx] = some zercherSquatEx ∧
    getExercise "leg-press" [rowEx, zercherSquatEx] = none := by
  refine ⟨?_, ?_, ?_⟩
  · exact (getExercise_single_pass [rowEx, zercherSquatEx] "zercher").2
      [rowEx] zercherSquatEx [] rfl (by decide) (by decide)
  · exact (getExercise_single_pass [rowEx, zercherSquatEx] "zercher-squat").2
      [rowEx] zercherSquatEx [] rfl (by decide) (by decide)
  · exact (getExercise_single_pass [rowEx, zercherSquatEx] "leg-press").1.mpr
      (by decide)

/-! ## C2 -/

/-- C2 (counterexample): `updateExercise` does not revalidate the merged
record: an update whose `muscles` list is not drawn from the muscle-group
enum is saved as-is, and the saved record fails the `Exercise` schema. -/
theorem updateExercise_skips_revalidation :
    updateExercise "bench-press" { muscles := some ["bogus"] }
        [⟨"bench-press", "Bench Press", [], ["chest"],
          .compound, .barbell, .total, none⟩] =
      .ok [⟨"bench-press", "Bench Press", [], ["bogus"],
        .compound, .barbell, .total, none⟩] ∧
    exerciseSchemaValid
        ⟨"bench-press", "Bench Press", [], ["bogus"],
          .compound, .barbell, .total, none⟩ = false := by
  constructor
  · rfl
  · decide

/-- C2 (amended): `updateExercise` fails with a not-found error exactly
when no exercise has primary id `id` (alias matches do not count), and
otherwise saves the shallow merge unconditionally — for every update
value, schema-valid or not, so exercise update does not revalidate.
`updateTemplate` has the same existence contract but parses the merged
record through the full `Template` schema before saving, failing when the
merge violates it. -/
theorem update_merge_validation (id : String) (u : ExerciseUpdate)
    (v : TemplateUpdate) :
    (∀ exs : List Exercise, (∀ e ∈ exs, e.id ≠ id) →
      updateExercise id u exs = .error .notFound) ∧
    (∀ pre (e : Exercise) post, e.id = id → (∀ e' ∈ pre, e'.id ≠ id) →
      updateExercise id u (pre ++ e :: post) =
        .ok (pre ++ applyExerciseUpdate u e :: post)) ∧
    (∀ ts : List Template, (∀ t ∈ ts, t.id ≠ id) →
      updateTemplate id v ts = .error .notFound) ∧
    (∀ pre (t : Template) post, t.id = id → (∀ t' ∈ pre, t'.id ≠ id) →
      updateTemplate id v (pre ++ t :: post) =
        if templateSchemaValid (applyTemplateUpdate v t) then
          .ok (pre ++ applyTemplateUpdate v t :: post)
        else .error .schemaValidation) := by
  refine ⟨?_, ?_, ?_, ?_⟩
  · intro exs h
    induction exs with
    | nil => rfl
    | cons e rest ih =>
      have hne : ¬ e.id = id := h e (List.mem_cons_self _ _)
      simp only [updateExercise, if_neg hne,
        ih fun x hx => h x (List.mem_cons_of_mem _ hx)]
      rfl
  · intro pre e post he hpre
    induction pre with
    | nil => simp [updateExercise, he]
    | cons e' pre' ih =>
      have ih' := ih fun x hx => hpre x (List.mem_cons_of_mem _ hx)
      have hne : ¬ e'.id = id := hpre e' (List.mem_cons_self _ _)
      simp only [List.cons_append, updateExercise, if_neg hne,
        List.append_eq, ih', Except.map]
  · intro ts h
    induction ts with
    | nil => rfl
    | cons t rest ih =>
      have ih' := ih fun x hx => h x (List.mem_cons_of_mem _ hx)
      have hne : ¬ t.id = id := h t (List.mem_cons_self _ _)
      simp only [updateTemplate, if_neg hne, ih', Except.map]
  · intro pre t post ht hpre
    induction pre with
    | nil => simp [updateTemplate, ht]
    | cons t' pre' ih =>
      have ih' := ih fun x hx => hpre x (List.mem_cons_of_mem _ hx)
      have hne : ¬ t'.id = id := hpre t' (List.mem_cons_self _ _)
      simp only [List.cons_append, updateTemplate, if_neg hne,
        List.append_eq, ih']
      by_cases hv : templateSchemaValid (applyTemplateUpdate v t)
      · simp [hv, Except.map]
      · simp [hv, Except.map]

/-- C2 (witness): a schema-breaking exercise update is saved without
complaint — even when the target is found only by primary id while another
exercise aliases the same string — while the corresponding template update
(`sets := 0`) is rejected by the schema parse. -/
theorem update_merge_validation_witness :
    updateExercise "curl" { muscles := some ["bogus"] }
        [⟨"curl", "Curl", [], ["biceps"], .isolation, .dumbbell, .total, none⟩] =
      .ok [⟨"curl", "Curl", [], ["bogus"], .isolation, .dumbbell, .total, none⟩] ∧
    updateExercise "press" { name := some "x" }
        [⟨"dip", "Dip", ["press"], ["triceps"], .compound, .bodyweight, .total,
          none⟩] =
      .error .notFound ∧
    updateTemplate "push" { exercises := some [⟨"bench-press", 0, "5"⟩] }
        [⟨"push", "Push Day", none, [⟨"bench-press", 3, "5"⟩]⟩] =
      .error .schemaValidation := by
  refine ⟨?_, ?_, ?_⟩
  · have h := (update_merge_validation "curl"
      { muscles := some ["bogus"] } {}).2.1 []
      ⟨"curl", "Curl", [], ["biceps"], .isolation, .dumbbell, .total, none⟩ []
      rfl (by intro e' h'; cases h')
    simpa [applyExerciseUpdate] using h
  · exact (update_merge_validation "press" { name := some "x" } {}).1 _
      (by decide)
  · have h := (update_merge_validation "push" {}
      { exercises := some [⟨"bench-press", 0, "5"⟩] }).2.2.2 []
      ⟨"push", "Push Day", none, [⟨"bench-press", 3, "5"⟩]⟩ []
      rfl (by intro t' h'; cases h')
    simpa [applyTemplateUpdate, templateSchemaValid] using h

/-! ## Stats lemmas -/

/-- The per-exercise volume multiplier of `calculateStats`: `2` when the
exercise resolves to a per-side entry, `1` otherwise. -/
def perSideMultiplier (lib : List Exercise) (exId : String) : Rat :=
  match getExercise exId lib with
  | some ex => if ex.weightInput = WeightInput.perSide then 2 else 1
  | none => 1

theorem volume_foldl (m : Rat) (l : List SetLog) (a : Rat) :
    l.foldl (fun v st => v + st.weight * st.reps * m) a =
      a + (l.map (fun st => st.weight * (st.reps : Rat))).sum * m := by
  induction l generalizing a with
  | nil => simp
  | cons st t ih =>
    simp only [List.foldl_cons, List.map_cons, List.sum_cons, ih]
    ring

theorem statsStep_resolved (lib : List Exercise) (acc : WorkoutStats)
    (log : ExerciseLog) (h : (getExercise log.exercise lib).isSome = true) :
    (statsStep lib acc log).totalSets = acc.totalSets + log.sets.length ∧
    (statsStep lib acc log).totalVolume = acc.totalVolume +
      (log.sets.map (fun st => st.weight * (st.reps : Rat))).sum *
        perSideMultiplier lib log.exercise := by
  cases hex : getExercise log.exercise lib with
  | none => simp [hex] at h
  | some ex =>
    constructor
    · simp [statsStep, hex]
    · simp only [statsStep, hex]
      rw [volume_foldl]
      simp [perSideMultiplier, hex]

theorem calcStats_foldl (lib : List Exercise) (l : List ExerciseLog)
    (acc : WorkoutStats)
    (h : ∀ log ∈ l, (getExercise log.exercise lib).isSome = true) :
    (l.foldl (statsStep lib) acc).totalSets =
      acc.totalSets + (l.map (fun lg => lg.sets.length)).sum ∧
    (l.foldl (statsStep lib) acc).totalVolume =
      acc.totalVolume +
        (l.map (fun lg =>
          (lg.sets.map (fun st => st.weight * (st.reps : Rat))).sum *
            perSideMultiplier lib lg.exercise)).sum := by
  induction l generalizing acc with
  | nil => simp
  | cons lg t ih =>
    have h1 := statsStep_resolved lib acc lg (h lg (List.mem_cons_self _ _))
    have iht := ih (statsStep lib acc lg)
      (fun x hx => h x (List.mem_cons_of_mem _ hx))
    constructor
    · rw [List.foldl_cons, iht.1, h1.1]
      simp [Nat.add_assoc]
    · rw [List.foldl_cons, iht.2, h1.2]
      simp only [List.map_cons, List.sum_cons]
      ring

/-! ## C6 -/

/-- C6 (counterexample): `calculateStats` counts only sets of logs whose
exercise id resolves in the library, so the claim's unconditional equality
`totalSets = number of logged SetLog entries` fails: with an empty library
a one-set log contributes nothing. -/
theorem calculateStats_drops_unresolved_sets :
    (calculateStats []
        ⟨"2024-02-02-freestyle", "2024-02-02", none, "t0", none,
          [⟨"ghost", [⟨100, 5, none⟩], none⟩], [], none⟩).totalSets = 0 ∧
    ((⟨"2024-02-02-freestyle", "2024-02-02", none, "t0", none,
        [⟨"ghost", [⟨100, 5, none⟩], none⟩], [], none⟩ : Workout).exercises.map
      (fun lg => lg.sets.length)).sum = 1 := by
  exact ⟨rfl, rfl⟩

/-- C6 (amended): provided every exercise log of the workout resolves in
the library (by id or alias), `totalSets` is the total number of logged
sets and `totalVolume` is the sum over all sets of weight × reps scaled by
the per-side multiplier (2 for `weightInput = per-side`, else 1).  Logs
that do not resolve are skipped (see the companion frame property), so the
unconditional form of the claim fails. -/
theorem calculateStats_totals (lib : List Exercise) (w : Workout)
    (h : ∀ log ∈ w.exercises, (getExercise log.exercise lib).isSome = true) :
    (calculateStats lib w).totalSets =
      (w.exercises.map (fun lg => lg.sets.length)).sum ∧
    (calculateStats lib w).totalVolume =
      (w.exercises.map (fun lg =>
        (lg.sets.map (fun st => st.weight * (st.reps : Rat))).sum *
          perSideMultiplier lib lg.exercise)).sum := by
  have hmain := calcStats_foldl lib w.exercises ⟨0, 0, []⟩ h
  simpa [calculateStats] using hmain

/-- Bench press, `weightInput: total`, as shipped in the default library. -/
def benchPressEx : Exercise :=
  ⟨"bench-press", "Bench Press", ["bench", "flat bench"],
    ["chest", "triceps", "front-delts"], .compound, .barbell, .total, none⟩

/-- The workout of the C6 scenario: `bench-press 135 8,8,7`. -/
def benchWorkout : Workout :=
  ⟨"2024-01-01-freestyle", "2024-01-01", none, "t0", some "t1",
    [⟨"bench-press", [⟨135, 8, none⟩, ⟨135, 8, none⟩, ⟨135, 7, none⟩], none⟩],
    [], none⟩

/-- A per-side dumbbell exercise. -/
def perSideDbEx : Exercise :=
  ⟨"db-bench", "Dumbbell Bench", [], ["chest"], .compound, .dumbbell,
    .perSide, none⟩

/-- The workout of the per-side C6 scenario: one set of `25×10`. -/
def perSideWorkout : Workout :=
  ⟨"2024-01-02-freestyle", "2024-01-02", none, "t0", none,
    [⟨"db-bench", [⟨25, 10, none⟩], none⟩], [], none⟩

/-- C6 (witness): logging bench-press at 135 for reps 8, 8, 7 yields
`totalSets = 3` and `totalVolume = 3105`; a per-side exercise logged at
`25×10` contributes `500`, not `250`. -/
theorem calculateStats_totals_witness :
    (calculateStats [benchPressEx] benchWorkout).totalSets = 3 ∧
    (calculateStats [benchPressEx] benchWorkout).totalVolume = 3105 ∧
    (calculateStats [perSideDbEx] perSideWorkout).totalVolume = 500 := by
  have h1 := calculateStats_totals [benchPressEx] benchWorkout (by decide)
  have h2 := calculateStats_totals [perSideDbEx] perSideWorkout (by decide)
  refine ⟨?_, ?_, ?_⟩
  · rw [h1.1]; rfl
  · rw [h1.2]
    simp [benchWorkout, benchPressEx, perSideMultiplier, getExercise]
    norm_num
  · rw [h2.2]
    simp [perSideWorkout, perSideDbEx, perSideMultiplier, getExercise]
    norm_num

/-! ## C10 -/

theorem foldl_statsStep_filter (lib : List Exercise) :
    ∀ (l : List ExerciseLog) (acc : WorkoutStats),
      l.foldl (statsStep lib) acc =
        (l.filter (fun lg => (getExercise lg.exercise lib).isSome)).foldl
          (statsStep lib) acc := by
  intro l
  induction l with
  | nil => intro _; rfl
  | cons lg t ih =>
    intro acc
    by_cases hres : (getExercise lg.exercise lib).isSome
    · simp only [List.foldl_cons, List.filter_cons, hres, if_pos,
        List.foldl_cons]
      exact ih _
    · have hid : statsStep lib acc lg = acc := by
        cases hex : getExercise lg.exercise lib with
        | none => simp [statsStep, hex]
        | some ex => simp [hex] at hres
      simp only [List.foldl_cons, List.filter_cons, if_neg hres, hid]
      exact ih acc

/-- C10: an exercise log whose id resolves to no library exercise (neither
by id nor by alias) contributes nothing to the computed stats —
`calculateStats` of a workout equals `calculateStats` of the workout with
all unresolved logs filtered out — and therefore `totalSets` can be
strictly smaller than the number of sets actually logged, as the concrete
two-set phantom log shows. -/
theorem calculateStats_unresolved_frame :
    (∀ (lib : List Exercise) (w : Workout),
      calculateStats lib w =
        calculateStats lib
          { w with exercises := (w.exercises.filter (fun lg => (getExercise lg.exercise lib).isSome)) }) ∧
    (calculateStats []
        ⟨"2024-03-03-freestyle", "2024-03-03", none, "t0", none,
          [⟨"phantom", [⟨60, 10, none⟩, ⟨60, 10, none⟩], none⟩], [],
          none⟩).totalSets <
      ((⟨"2024-03-03-freestyle", "2024-03-03", none, "t0", none,
          [⟨"phantom", [⟨60, 10, none⟩, ⟨60, 10, none⟩], none⟩], [],
          none⟩ : Workout).exercises.map (fun lg => lg.sets.length)).sum := by
  constructor
  · intro lib w
    have hmain := foldl_statsStep_filter lib w.exercises
      (⟨0, 0, []⟩ : WorkoutStats)
    simpa [calculateStats] using hmain
  · decide

/-! ## C7 -/

/-- C7: when the weight argument begins with `+` or `-` and parses to the
signed offset `off`, the `log` command resolves the weight to the weight
of the last set of the most recent history entry for the exercise plus
`off` — and every newly created set carries that resolved weight; when the
history is empty, or the most recent matching log has no sets, the command
fails instead of logging. -/
theorem logRelativeWeight_resolution (weightStr : String) (s : StoreState)
    (exId : String) (off : Rat)
    (hpre : (startsWithChar weightStr '+' || startsWithChar weightStr '-') = true)
    (hoff : parseFloatQ weightStr = some off) :
    (∀ w0 log0 rest lastSet,
      getExerciseHistory exId s = (w0, log0) :: rest →
      log0.sets.getLast? = some lastSet →
      resolveLogWeight weightStr (getExerciseHistory exId s) =
        .ok (some (lastSet.weight + off)) ∧
      ∀ (repsList : List Nat) (rir : Option Nat),
        (makeNewSets (lastSet.weight + off) repsList rir).map SetLog.weight =
          repsList.map (fun _ => lastSet.weight + off)) ∧
    (getExerciseHistory exId s = [] →
      resolveLogWeight weightStr (getExerciseHistory exId s) =
        .error .noHistory) ∧
    (∀ w0 log0 rest,
      getExerciseHistory exId s = (w0, log0) :: rest → log0.sets = [] →
      resolveLogWeight weightStr (getExerciseHistory exId s) =
        .error .noPreviousSets) := by
  refine ⟨?_, ?_, ?_⟩
  · intro w0 log0 rest lastSet hh hlast
    rw [hh]
    constructor
    · simp [resolveLogWeight, hpre, hlast, hoff]
    · intro repsList rir
      simp [makeNewSets, List.map_map, Function.comp_def]
  · intro hh
    rw [hh]
    simp [resolveLogWeight, hpre]
  · intro w0 log0 rest hh hempty
    rw [hh]
    simp [resolveLogWeight, hpre, hempty]

/-- C7 (witness): with one finished workout whose bench-press log ends at
weight 100, logging `+5` resolves to 105; with no history at all the
command errors out. -/
theorem logRelativeWeight_resolution_witness :
    resolveLogWeight "+5"
        (getExerciseHistory "bench-press"
          ⟨⟨.lbs, "~/.workout"⟩, [], [], none,
            [("2024-01-05",
              ⟨"2024-01-05-freestyle", "2024-01-05", none, "t0", some "t1",
                [⟨"bench-press", [⟨100, 8, none⟩], none⟩], [], none⟩)]⟩) =
      .ok (some 105) ∧
    resolveLogWeight "+5"
        (getExerciseHistory "bench-press"
          ⟨⟨.lbs, "~/.workout"⟩, [], [], none, []⟩) =
      .error .noHistory := by
  have hoff : parseFloatQ "+5" = some 5 := by
    simp [parseFloatQ, digitsVal]
  have h1 := logRelativeWeight_resolution "+5"
    ⟨⟨.lbs, "~/.workout"⟩, [], [], none,
      [("2024-01-05",
        ⟨"2024-01-05-freestyle", "2024-01-05", none, "t0", some "t1",
          [⟨"bench-press", [⟨100, 8, none⟩], none⟩], [], none⟩)]⟩
    "bench-press" 5 rfl hoff
  have h2 := logRelativeWeight_resolution "+5"
    ⟨⟨.lbs, "~/.workout"⟩, [], [], none, []⟩ "bench-press" 5 rfl hoff
  constructor
  · have hres := (h1.1
      ⟨"2024-01-05-freestyle", "2024-01-05", none, "t0", some "t1",
        [⟨"bench-press", [⟨100, 8, none⟩], none⟩], [], none⟩
      ⟨"bench-press", [⟨100, 8, none⟩], none⟩ [] ⟨100, 8, none⟩ rfl rfl).1
    rw [hres]
    norm_num
  · exact h2.2.1 rfl

/-! ## C5 -/

theorem lookupWorkout_upsert_self (d : String) (w : Workout) :
    ∀ L, lookupWorkout d (upsertWorkout d w L) = some w := by
  intro L
  induction L with
  | nil => simp [upsertWorkout, lookupWorkout]
  | cons p rest ih =>
    by_cases h : p.1 = d
    · simp [upsertWorkout, h, lookupWorkout]
    · simp [upsertWorkout, h, lookupWorkout, ih]

theorem lookupWorkout_upsert_ne (d d' : String) (w : Workout) (h : d' ≠ d) :
    ∀ L, lookupWorkout d' (upsertWorkout d w L) = lookupWorkout d' L := by
  intro L
  induction L with
  | nil => simp [upsertWorkout, lookupWorkout, Ne.symm h]
  | cons p rest ih =>
    by_cases hp : p.1 = d
    · subst hp
      simp [upsertWorkout, lookupWorkout, Ne.symm h]
    · simp [upsertWorkout, hp, lookupWorkout, ih]

/-- C5: `finishWorkout(w)` writes `w` to the slot keyed by `w.date` —
unconditionally, so a workout already finished on that date is overwritten
— and clears the current session; afterwards `getWorkout w.date` returns
`w`, `getCurrentWorkout` returns `null`, and the config, the exercise
library, the templates and every workout on any other date are
unchanged. -/
theorem finishWorkout_effects (s : StoreState) (w : Workout) :
    getWorkout w.date (finishWorkout w s) = some w ∧
    getCurrentWorkout (finishWorkout w s) = none ∧
    (∀ d, d ≠ w.date → getWorkout d (finishWorkout w s) = getWorkout d s) ∧
    (finishWorkout w s).config = s.config ∧
    (finishWorkout w s).exercises = s.exercises ∧
    (finishWorkout w s).templates = s.templates := by
  refine ⟨?_, rfl, ?_, rfl, rfl, rfl⟩
  · exact lookupWorkout_upsert_self w.date w s.workouts
  · intro d hd
    exact lookupWorkout_upsert_ne w.date d w hd s.workouts

/-- C5 (witness): finishing a workout dated 2024-01-01 over a store that
already holds a finished workout on that date overwrites it, clears the
current session, and leaves the workout of 2023-12-31, the config, the
library and the templates untouched. -/
theorem finishWorkout_effects_witness :
    getWorkout "2024-01-01"
        (finishWorkout
          ⟨"2024-01-01-push", "2024-01-01", some "push", "t2", some "t3",
            [], [], none⟩
          ⟨⟨.lbs, "~/.workout"⟩, [], [],
            some ⟨"2024-01-01-push", "2024-01-01", some "push", "t2", none,
              [], [], none⟩,
            [("2024-01-01",
              ⟨"2024-01-01-freestyle", "2024-01-01", none, "t0", some "t1",
                [], [], none⟩),
             ("2023-12-31",
              ⟨"2023-12-31-pull", "2023-12-31", some "pull", "t0", some "t1",
                [], [], none⟩)]⟩) =
      some ⟨"2024-01-01-push", "2024-01-01", some "push", "t2", some "t3",
        [], [], none⟩ ∧
    getCurrentWorkout
        (finishWorkout
          ⟨"2024-01-01-push", "2024-01-01", some "push", "t2", some "t3",
            [], [], none⟩
          ⟨⟨.lbs, "~/.workout"⟩, [], [],
            some ⟨"2024-01-01-push", "2024-01-01", some "push", "t2", none,
              [], [], none⟩,
            [("2024-01-01",
              ⟨"2024-01-01-freestyle", "2024-01-01", none, "t0", some "t1",
                [], [], none⟩),
             ("2023-12-31",
              ⟨"2023-12-31-pull", "2023-12-31", some "pull", "t0", some "t1",
                [], [], none⟩)]⟩) = none ∧
    getWorkout "2023-12-31"
        (finishWorkout
          ⟨"2024-01-01-push", "2024-01-01", some "push", "t2", some "t3",
            [], [], none⟩
          ⟨⟨.lbs, "~/.workout"⟩, [], [],
            some ⟨"2024-01-01-push", "2024-01-01", some "push", "t2", none,
              [], [], none⟩,
            [("2024-01-01",
              ⟨"2024-01-01-freestyle", "2024-01-01", none, "t0", some "t1",
                [], [], none⟩),
             ("2023-12-31",
              ⟨"2023-12-31-pull", "2023-12-31", some "pull", "t0", some "t1",
                [], [], none⟩)]⟩) =
      some ⟨"2023-12-31-pull", "2023-12-31", some "pull", "t0", some "t1",
        [], [], none⟩ := by
  have h := finishWorkout_effects
    ⟨⟨.lbs, "~/.workout"⟩, [], [],
      some ⟨"2024-01-01-push", "2024-01-01", some "push", "t2", none,
        [], [], none⟩,
      [("2024-01-01",
        ⟨"2024-01-01-freestyle", "2024-01-01", none, "t0", some "t1",
          [], [], none⟩),
       ("2023-12-31",
        ⟨"2023-12-31-pull", "2023-12-31", some "pull", "t0", some "t1",
          [], [], none⟩)]⟩
    ⟨"2024-01-01-push", "2024-01-01", some "push", "t2", some "t3",
      [], [], none⟩
  refine ⟨h.1, h.2.1, ?_⟩
  have h3 := h.2.2.1 "2023-12-31" (by decide)
  rw [h3]
  rfl

/-! ## Profile lemmas -/

theorem findProfile_upsert_self (n : String) (d : ProfileDir) :
    ∀ L, findProfile n (upsertProfile n d L) = some d := by
  intro L
  induction L with
  | nil => simp [upsertProfile, findProfile]
  | cons p rest ih =>
    by_cases h : p.1 = n
    · simp [upsertProfile, h, findProfile]
    · simp [upsertProfile, h, findProfile, ih]

theorem findProfile_eraseP_ne (m n : String) (h : m ≠ n) :
    ∀ L : List (String × ProfileDir),
      findProfile m (L.eraseP (fun p => p.1 == n)) = findProfile m L := by
  intro L
  induction L with
  | nil => rfl
  | cons p rest ih =>
    by_cases hp : p.1 = n
    · have hb : (p.1 == n) = true := beq_iff_eq.mpr hp
      have hm : ¬ p.1 = m := fun hc => h (hc ▸ hp)
      simp only [List.eraseP_cons, hb, cond_true]
      simp [findProfile, hm]
    · have hb : (p.1 == n) = false := by simp [hp]
      simp only [List.eraseP_cons, hb, cond_false]
      by_cases hm : p.1 = m
      · simp [findProfile, hm]
      · simp [findProfile, hm, ih]

theorem findProfile_eq_none_of_not_mem (n : String) :
    ∀ L : List (String × ProfileDir),
      n ∉ L.map Prod.fst → findProfile n L = none := by
  intro L
  induction L with
  | nil => intro _; rfl
  | cons p rest ih =>
    intro hn
    have h1 : ¬ p.1 = n := fun hc => hn (by simp [hc])
    have h2 : n ∉ rest.map Prod.fst := fun hc => hn (by simp [hc])
    simp [findProfile, h1, ih h2]

theorem findProfile_eraseP_self (n : String) :
    ∀ L : List (String × ProfileDir), (L.map Prod.fst).Nodup →
      findProfile n (L.eraseP (fun p => p.1 == n)) = none := by
  intro L
  induction L with
  | nil => intro _; rfl
  | cons p rest ih =>
    intro hnd
    have hnd' := (List.nodup_cons.mp hnd)
    by_cases hp : p.1 = n
    · have hb : (p.1 == n) = true := beq_iff_eq.mpr hp
      simp only [List.eraseP_cons, hb, cond_true]
      exact findProfile_eq_none_of_not_mem n rest (hp ▸ hnd'.1)
    · have hb : (p.1 == n) = false := by simp [hp]
      simp only [List.eraseP_cons, hb, cond_false]
      simp [findProfile, hp, ih hnd'.2]

/-! ## C9 -/

/-- C9: `deleteProfile(name)` fails with a not-found error when no profile
directory named `name` exists and with a last-profile error when it is the
only profile, leaving the file system untouched in both failure cases;
only when the profile exists alongside at least one other is its directory
removed — after which it no longer exists (given distinct directory names)
while every other profile is preserved. -/
theorem deleteProfile_spec (s : FsState) (name : String) :
    (profileExists name s = false →
      deleteProfile name s = .error .notFound ∧
        applyDeleteProfile name s = s) ∧
    (profileExists name s = true → (getProfiles s).length = 1 →
      deleteProfile name s = .error .lastProfile ∧
        applyDeleteProfile name s = s) ∧
    (profileExists name s = true → (getProfiles s).length ≠ 1 →
      deleteProfile name s =
        .ok { s with profiles := s.profiles.eraseP (fun p => p.1 == name) } ∧
      (∀ m, m ≠ name →
        findProfile m (applyDeleteProfile name s).profiles =
          findProfile m s.profiles) ∧
      ((getProfiles s).Nodup →
        profileExists name (applyDeleteProfile name s) = false)) := by
  refine ⟨?_, ?_, ?_⟩
  · intro hex
    constructor
    · simp [deleteProfile, hex]
    · simp [applyDeleteProfile, deleteProfile, hex]
  · intro hex hlen
    constructor
    · simp [deleteProfile, hex, hlen]
    · simp [applyDeleteProfile, deleteProfile, hex, hlen]
  · intro hex hlen
    refine ⟨?_, ?_, ?_⟩
    · simp [deleteProfile, hex, hlen]
    · intro m hm
      have happ : applyDeleteProfile name s =
          { s with profiles := s.profiles.eraseP (fun p => p.1 == name) } := by
        simp [applyDeleteProfile, deleteProfile, hex, hlen]
      rw [happ]
      exact findProfile_eraseP_ne m name hm s.profiles
    · intro hnd
      have happ : applyDeleteProfile name s =
          { s with profiles := s.profiles.eraseP (fun p => p.1 == name) } := by
        simp [applyDeleteProfile, deleteProfile, hex, hlen]
      rw [happ]
      simp only [profileExists]
      rw [findProfile_eraseP_self name s.profiles hnd]
      rfl

/-- C9 (witness): deleting a missing profile and deleting the sole profile
both error and leave the file system as it was; deleting one of two
profiles removes exactly that directory. -/
theorem deleteProfile_spec_witness :
    deleteProfile "ghost"
        ⟨none, none, none, none, [("solo", ⟨none, none, none, some []⟩)]⟩ =
      .error .notFound ∧
    applyDeleteProfile "solo"
        ⟨none, none, none, none, [("solo", ⟨none, none, none, some []⟩)]⟩ =
      ⟨none, none, none, none, [("solo", ⟨none, none, none, some []⟩)]⟩ ∧
    deleteProfile "alice"
        ⟨none, none, none, none,
          [("alice", ⟨none, none, none, some []⟩),
           ("bob", ⟨none, none, none, some []⟩)]⟩ =
      .ok ⟨none, none, none, none, [("bob", ⟨none, none, none, some []⟩)]⟩ ∧
    profileExists "alice"
        (applyDeleteProfile "alice"
          ⟨none, none, none, none,
            [("alice", ⟨none, none, none, some []⟩),
             ("bob", ⟨none, none, none, some []⟩)]⟩) = false ∧
    findProfile "bob"
        (applyDeleteProfile "alice"
          ⟨none, none, none, none,
            [("alice", ⟨none, none, none, some []⟩),
             ("bob", ⟨none, none, none, some []⟩)]⟩).profiles =
      some ⟨none, none, none, some []⟩ := by
  have h1 := (deleteProfile_spec
    ⟨none, none, none, none, [("solo", ⟨none, none, none, some []⟩)]⟩
    "ghost").1 rfl
  have h2 := (deleteProfile_spec
    ⟨none, none, none, none, [("solo", ⟨none, none, none, some []⟩)]⟩
    "solo").2.1 rfl rfl
  have h3 := (deleteProfile_spec
    ⟨none, none, none, none,
      [("alice", ⟨none, none, none, some []⟩),
       ("bob", ⟨none, none, none, some []⟩)]⟩
    "alice").2.2 rfl (by decide)
  refine ⟨h1.1, h2.2, ?_, ?_, ?_⟩
  · rw [h3.1]
    rfl
  · exact h3.2.2 (by decide)
  · rw [h3.2.1 "bob" (by decide)]
    rfl


/-! ## C8 -/

/-- C8: `migrateLegacyData` is a no-op when there is no legacy data, and
running it twice always produces the same end state as running it once.
When legacy data is present, one run moves each legacy file under
`profiles/default` and leaves no legacy data behind (so the move happens
exactly once), and creates an empty workouts directory there when neither
a legacy one nor an existing default one was present. -/
theorem migrateLegacyData_noop (t : FsState) (h : hasLegacyData t = false) :
    migrateLegacyData t = t := by
  simp [migrateLegacyData, h]

theorem migrateLegacyData_idempotent (s : FsState) :
    (hasLegacyData s = false → migrateLegacyData s = s) ∧
    migrateLegacyData (migrateLegacyData s) = migrateLegacyData s ∧
    (hasLegacyData s = true →
      hasLegacyData (migrateLegacyData s) = false ∧
      (∀ c, s.legacyConfig = some c →
        ((findProfile "default" (migrateLegacyData s).profiles).getD
          ⟨none, none, none, none⟩).config = some c) ∧
      (∀ c, s.legacyTemplates = some c →
        ((findProfile "default" (migrateLegacyData s).profiles).getD
          ⟨none, none, none, none⟩).templates = some c) ∧
      (∀ c, s.legacyCurrent = some c →
        ((findProfile "default" (migrateLegacyData s).profiles).getD
          ⟨none, none, none, none⟩).current = some c) ∧
      (∀ ws, s.legacyWorkouts = some ws →
        ((findProfile "default" (migrateLegacyData s).profiles).getD
          ⟨none, none, none, none⟩).workouts = some ws) ∧
      (s.legacyWorkouts = none →
        ((findProfile "default" s.profiles).getD
          ⟨none, none, none, none⟩).workouts = none →
        ((findProfile "default" (migrateLegacyData s).profiles).getD
          ⟨none, none, none, none⟩).workouts = some [])) := by
  by_cases h : hasLegacyData s
  · have hmig : hasLegacyData (migrateLegacyData s) = false := by
      simp only [migrateLegacyData, h, if_true]
      rfl
    refine ⟨?_, migrateLegacyData_noop _ hmig, fun _ => ?_⟩
    · intro hc
      rw [h] at hc
      cases hc
    · refine ⟨hmig, ?_, ?_, ?_, ?_, ?_⟩
      · intro c hc
        simp [migrateLegacyData, h, findProfile_upsert_self, hc]
      · intro c hc
        simp [migrateLegacyData, h, findProfile_upsert_self, hc]
      · intro c hc
        simp [migrateLegacyData, h, findProfile_upsert_self, hc]
      · intro ws hws
        simp [migrateLegacyData, h, findProfile_upsert_self, hws]
      · intro hws hd0
        simp [migrateLegacyData, h, findProfile_upsert_self, hws, hd0]
  · have hf : hasLegacyData s = false := by simpa using h
    have hno := migrateLegacyData_noop s hf
    refine ⟨fun _ => hno, ?_, fun hc => ?_⟩
    · rw [hno, hno]
    · rw [hc] at hf
      cases hf

/-- C8 (witness): a state holding a legacy `config.json` and `current.json`
migrates to a default profile carrying them plus a fresh empty workouts
directory, a second run changes nothing, and a state without legacy data
is untouched. -/
theorem migrateLegacyData_idempotent_witness :
    migrateLegacyData (migrateLegacyData
        ⟨some "cfg", none, some "cur", none, []⟩) =
      migrateLegacyData ⟨some "cfg", none, some "cur", none, []⟩ ∧
    hasLegacyData
        (migrateLegacyData ⟨some "cfg", none, some "cur", none, []⟩) = false ∧
    ((findProfile "default"
        (migrateLegacyData
          ⟨some "cfg", none, some "cur", none, []⟩).profiles).getD
      ⟨none, none, none, none⟩).config = some "cfg" ∧
    ((findProfile "default"
        (migrateLegacyData
          ⟨some "cfg", none, some "cur", none, []⟩).profiles).getD
      ⟨none, none, none, none⟩).workouts = some [] ∧
    migrateLegacyData
        ⟨none, none, none, none, [("a", ⟨none, none, none, some []⟩)]⟩ =
      ⟨none, none, none, none, [("a", ⟨none, none, none, some []⟩)]⟩ := by
  have h := migrateLegacyData_idempotent
    ⟨some "cfg", none, some "cur", none, []⟩
  have h2 := migrateLegacyData_idempotent
    ⟨none, none, none, none, [("a", ⟨none, none, none, some []⟩)]⟩
  refine ⟨h.2.1, (h.2.2 rfl).1, (h.2.2 rfl).2.1 "cfg" rfl,
    (h.2.2 rfl).2.2.2.2.2 rfl rfl, h2.1 rfl⟩

/-! ## C3 -/

/-- C3: `resolveProfile` implements exactly the specified decision
procedure.  An explicit (nonempty) name is returned iff a same-named
profile directory exists, with a not-found error otherwise, and in both
branches nothing is created or migrated (the state is returned as-is).
With no explicit name: zero profiles migrates legacy data when present and
otherwise creates "default", returning "default"; exactly one profile is
returned as-is; more than one raises the ambiguity error, while supplying
any existing name succeeds. -/
theorem resolveProfile_decision (s : FsState) (name : String) :
    (name ≠ "" → profileExists name s = true →
      resolveProfile (some name) s = .ok (name, s)) ∧
    (name ≠ "" → profileExists name s = false →
      resolveProfile (some name) s = .error .notFound) ∧
    (getProfiles s = [] → hasLegacyData s = true →
      resolveProfile none s = .ok ("default", migrateLegacyData s)) ∧
    (getProfiles s = [] → hasLegacyData s = false →
      resolveProfile none s =
        .ok ("default",
          { s with profiles := [("default", newProfileDir)] })) ∧
    (∀ p, getProfiles s = [p] → resolveProfile none s = .ok (p, s)) ∧
    (2 ≤ (getProfiles s).length → resolveProfile none s = .error .ambiguous) := by
  refine ⟨?_, ?_, ?_, ?_, ?_, ?_⟩
  · intro hne hex
    simp [resolveProfile, hne, hex]
  · intro hne hex
    simp [resolveProfile, hne, hex]
  · intro hp hleg
    simp [resolveProfile, resolveProfileAuto, hp, hleg]
  · intro hp hleg
    have hnil : s.profiles = [] := by
      simpa [getProfiles] using hp
    have hval : validProfileName "default" = true := by decide
    simp [resolveProfile, resolveProfileAuto, hp, hleg, createProfile, hval,
      profileExists, hnil, findProfile]
  · intro p hp
    simp [resolveProfile, resolveProfileAuto, hp]
  · intro hlen
    have h0 : ¬ (getProfiles s).length = 0 := by omega
    have h1 : ¬ (getProfiles s).length = 1 := by omega
    simp [resolveProfile, resolveProfileAuto, h0, h1]

/-- C3 (witness): with two profiles and no explicit name the ambiguity
error is raised and either existing name succeeds; a missing explicit name
errors without touching the state; an empty profiles directory with legacy
data migrates it, and without legacy data auto-creates "default". -/
theorem resolveProfile_decision_witness :
    resolveProfile none
        ⟨none, none, none, none,
          [("alice", ⟨none, none, none, some []⟩),
           ("bob", ⟨none, none, none, some []⟩)]⟩ = .error .ambiguous ∧
    resolveProfile (some "alice")
        ⟨none, none, none, none,
          [("alice", ⟨none, none, none, some []⟩),
           ("bob", ⟨none, none, none, some []⟩)]⟩ =
      .ok ("alice",
        ⟨none, none, none, none,
          [("alice", ⟨none, none, none, some []⟩),
           ("bob", ⟨none, none, none, some []⟩)]⟩) ∧
    resolveProfile (some "bob")
        ⟨none, none, none, none,
          [("alice", ⟨none, none, none, some []⟩),
           ("bob", ⟨none, none, none, some []⟩)]⟩ =
      .ok ("bob",
        ⟨none, none, none, none,
          [("alice", ⟨none, none, none, some []⟩),
           ("bob", ⟨none, none, none, some []⟩)]⟩) ∧
    resolveProfile (some "carol")
        ⟨none, none, none, none,
          [("alice", ⟨none, none, none, some []⟩),
           ("bob", ⟨none, none, none, some []⟩)]⟩ = .error .notFound ∧
    resolveProfile none ⟨some "cfg", none, none, none, []⟩ =
      .ok ("default", migrateLegacyData ⟨some "cfg", none, none, none, []⟩) ∧
    resolveProfile none ⟨none, none, none, none, []⟩ =
      .ok ("default",
        ⟨none, none, none, none, [("default", newProfileDir)]⟩) ∧
    resolveProfile none
        ⟨none, none, none, none, [("solo", ⟨none, none, none, some []⟩)]⟩ =
      .ok ("solo",
        ⟨none, none, none, none, [("solo", ⟨none, none, none, some []⟩)]⟩) := by
  have h2 := resolveProfile_decision
    ⟨none, none, none, none,
      [("alice", ⟨none, none, none, some []⟩),
       ("bob", ⟨none, none, none, some []⟩)]⟩ "alice"
  have h2b := resolveProfile_decision
    ⟨none, none, none, none,
      [("alice", ⟨none, none, none, some []⟩),
       ("bob", ⟨none, none, none, some []⟩)]⟩ "bob"
  have h2c := resolveProfile_decision
    ⟨none, none, none, none,
      [("alice", ⟨none, none, none, some []⟩),
       ("bob", ⟨none, none, none, some []⟩)]⟩ "carol"
  have hleg := resolveProfile_decision ⟨some "cfg", none, none, none, []⟩ ""
  have hnew := resolveProfile_decision ⟨none, none, none, none, []⟩ ""
  have hone := resolveProfile_decision
    ⟨none, none, none, none, [("solo", ⟨none, none, none, some []⟩)]⟩ ""
  refine ⟨h2.2.2.2.2.2 (by decide), h2.1 (by decide) rfl,
    h2b.1 (by decide) rfl, h2c.2.1 (by decide) rfl,
    hleg.2.2.1 rfl rfl, hnew.2.2.2.1 rfl rfl,
    hone.2.2.2.2.1 "solo" rfl⟩

/-! ## C4: sorting and insertion-order independence -/

/-- A sequence of `finish()` calls, in order. -/
def finishAll (l : List Workout) (s : StoreState) : StoreState :=
  l.foldl (fun st w => finishWorkout w st) s

/-- The invariant the storage layer maintains on the workouts directory:
every file is named after the date of the workout it holds, and file names
are distinct (they are names in one directory). -/
def WorkoutsWellFormed (s : StoreState) : Prop :=
  (∀ p ∈ s.workouts, p.1 = p.2.date) ∧ (s.workouts.map Prod.fst).Nodup

theorem mem_upsertWorkout_fst (d : String) (w : Workout) :
    ∀ L (x : String), x ∈ (upsertWorkout d w L).map Prod.fst →
      x = d ∨ x ∈ L.map Prod.fst := by
  intro L
  induction L with
  | nil =>
    intro x hx
    simp [upsertWorkout] at hx
    exact Or.inl hx
  | cons p rest ih =>
    intro x hx
    by_cases hp : p.1 = d
    · simp only [upsertWorkout, hp, if_pos, List.map_cons, List.mem_cons] at hx
      rcases hx with hx | hx
      · exact Or.inl hx
      · exact Or.inr (by simp [hx])
    · simp only [upsertWorkout, hp, if_neg, not_false_iff, List.map_cons,
        List.mem_cons] at hx
      rcases hx with hx | hx
      · exact Or.inr (by simp [hx])
      · rcases ih x hx with h | h
        · exact Or.inl h
        · exact Or.inr (by simp [h])

theorem upsertWorkout_keys_nodup (d : String) (w : Workout) :
    ∀ L, (L.map Prod.fst).Nodup → ((upsertWorkout d w L).map Prod.fst).Nodup := by
  intro L
  induction L with
  | nil => intro _; simp [upsertWorkout]
  | cons p rest ih =>
    intro hnd
    rw [List.map_cons] at hnd
    have hnd' := List.nodup_cons.mp hnd
    by_cases hp : p.1 = d
    · simp only [upsertWorkout, hp, if_pos, List.map_cons]
      exact List.nodup_cons.mpr ⟨hp ▸ hnd'.1, hnd'.2⟩
    · simp only [upsertWorkout, hp, if_neg, not_false_iff, List.map_cons]
      refine List.nodup_cons.mpr ⟨?_, ih hnd'.2⟩
      intro hc
      rcases mem_upsertWorkout_fst d w rest p.1 hc with h | h
      · exact hp h
      · exact hnd'.1 h

theorem mem_upsertWorkout_keyed (w : Workout) :
    ∀ L, (∀ p ∈ L, p.1 = p.2.date) →
      ∀ p ∈ upsertWorkout w.date w L, p.1 = p.2.date := by
  intro L
  induction L with
  | nil =>
    intro _ p hp
    simp [upsertWorkout] at hp
    simp [hp]
  | cons q rest ih =>
    intro hk p hp
    by_cases hq : q.1 = w.date
    · simp only [upsertWorkout, hq, if_pos, List.mem_cons] at hp
      rcases hp with hp | hp
      · simp [hp]
      · exact hk p (List.mem_cons_of_mem _ hp)
    · simp only [upsertWorkout, hq, if_neg, not_false_iff, List.mem_cons] at hp
      rcases hp with hp | hp
      · exact hp ▸ hk q (List.mem_cons_self _ _)
      · exact ih (fun r hr => hk r (List.mem_cons_of_mem _ hr)) p hp

theorem finishWorkout_wellFormed (w : Workout) (s : StoreState)
    (h : WorkoutsWellFormed s) : WorkoutsWellFormed (finishWorkout w s) := by
  constructor
  · exact mem_upsertWorkout_keyed w s.workouts h.1
  · exact upsertWorkout_keys_nodup w.date w s.workouts h.2

theorem finishAll_wellFormed :
    ∀ (l : List Workout) (s : StoreState), WorkoutsWellFormed s →
      WorkoutsWellFormed (finishAll l s) := by
  intro l
  induction l with
  | nil => intro s h; exact h
  | cons w t ih =>
    intro s h
    exact ih (finishWorkout w s) (finishWorkout_wellFormed w s h)

theorem lookupWorkout_eq_none_of_not_mem (d : String) :
    ∀ L : List (String × Workout), d ∉ L.map Prod.fst →
      lookupWorkout d L = none := by
  intro L
  induction L with
  | nil => intro _; rfl
  | cons p rest ih =>
    intro hd
    have h1 : ¬ p.1 = d := fun hc => hd (by simp [hc])
    have h2 : d ∉ rest.map Prod.fst := fun hc => hd (by simp [hc])
    simp [lookupWorkout, h1, ih h2]

theorem lookupWorkout_some_mem (d : String) (w : Workout) :
    ∀ L : List (String × Workout), lookupWorkout d L = some w → (d, w) ∈ L := by
  intro L
  induction L with
  | nil => intro h; cases h
  | cons p rest ih =>
    intro h
    by_cases hp : p.1 = d
    · rw [lookupWorkout, if_pos hp] at h
      have hw : p.2 = w := by injection h
      have hpw : (d, w) = p := by
        rw [← hp, ← hw]
      rw [hpw]
      exact List.mem_cons_self _ _
    · rw [lookupWorkout, if_neg hp] at h
      exact List.mem_cons_of_mem _ (ih h)

theorem lookupWorkout_append_middle (d : String) (p : String × Workout)
    (hd : p.1 ≠ d) (B : List (String × Workout)) :
    ∀ A, lookupWorkout d (A ++ p :: B) = lookupWorkout d (A ++ B) := by
  intro A
  induction A with
  | nil => simp [lookupWorkout, hd]
  | cons q A' ih =>
    by_cases hq : q.1 = d
    · simp [lookupWorkout, hq]
    · simp [lookupWorkout, hq, ih]

theorem getLast?_cons_of_some {α : Type} (a x : α) :
    ∀ l : List α, l.getLast? = some x → (a :: l).getLast? = some x := by
  intro l
  cases l with
  | nil => intro h; cases h
  | cons b t => intro h; rw [List.getLast?_cons_cons]; exact h

theorem filter_date_length_le_one (d : String) :
    ∀ l : List Workout, (l.map Workout.date).Nodup →
      (l.filter (fun w => w.date == d)).length ≤ 1 := by
  intro l
  induction l with
  | nil => intro _; simp
  | cons a t ih =>
    intro hnd
    rw [List.map_cons] at hnd
    have hnd' := List.nodup_cons.mp hnd
    by_cases ha : a.date = d
    · have hb : (a.date == d) = true := beq_iff_eq.mpr ha
      have hempty : t.filter (fun w => w.date == d) = [] := by
        rw [List.filter_eq_nil_iff]
        intro w hw hc
        have : w.date = d := by simpa using hc
        exact hnd'.1 (by
          rw [← ha] at this
          exact this ▸ List.mem_map_of_mem Workout.date hw)
      simp [List.filter_cons, hb, hempty]
    · have hb : (a.date == d) = false := by simp [ha]
      simp only [List.filter_cons, hb, cond_false, if_neg]
      simpa using ih hnd'.2

theorem perm_eq_of_length_le_one {α : Type} :
    ∀ {l₁ l₂ : List α}, l₁.Perm l₂ → l₁.length ≤ 1 → l₁ = l₂ := by
  intro l₁ l₂ hp hlen
  match l₁, hlen with
  | [], _ => exact (hp.symm.eq_nil).symm
  | [a], _ => exact (List.perm_singleton.mp hp.symm).symm

theorem lookup_finishAll (d : String) :
    ∀ (l : List Workout) (s : StoreState),
      lookupWorkout d (finishAll l s).workouts =
        match (l.filter (fun w => w.date == d)).getLast? with
        | some w => some w
        | none => lookupWorkout d s.workouts := by
  intro l
  induction l with
  | nil => intro s; rfl
  | cons w t ih =>
    intro s
    show lookupWorkout d (finishAll t (finishWorkout w s)).workouts = _
    rw [ih (finishWorkout w s)]
    by_cases hd : w.date = d
    · have hb : (w.date == d) = true := beq_iff_eq.mpr hd
      have hfc : (w :: t).filter (fun w' => w'.date == d) =
          w :: t.filter (fun w' => w'.date == d) := by
        simp [List.filter_cons, hb]
      rw [hfc]
      cases hl : (t.filter (fun w' => w'.date == d)).getLast? with
      | some x =>
        rw [getLast?_cons_of_some w x _ hl]
      | none =>
        have hnil : t.filter (fun w' => w'.date == d) = [] :=
          List.getLast?_eq_none_iff.mp hl
        rw [hnil, List.getLast?_singleton]
        have hup : lookupWorkout d (upsertWorkout w.date w s.workouts) =
            some w := by
          rw [hd]
          exact lookupWorkout_upsert_self d w s.workouts
        exact hup
    · have hb : (w.date == d) = false := by simp [hd]
      have hfc : (w :: t).filter (fun w' => w'.date == d) =
          t.filter (fun w' => w'.date == d) := by
        simp [List.filter_cons, hb]
      rw [hfc]
      have hup : lookupWorkout d (finishWorkout w s).workouts =
          lookupWorkout d s.workouts :=
        lookupWorkout_upsert_ne w.date d w (fun hc => hd hc.symm) s.workouts
      rw [hup]

theorem assoc_perm_of_lookup_eq :
    ∀ (L₁ L₂ : List (String × Workout)),
      (L₁.map Prod.fst).Nodup → (L₂.map Prod.fst).Nodup →
      (∀ d, lookupWorkout d L₁ = lookupWorkout d L₂) → L₁.Perm L₂ := by
  intro L₁
  induction L₁ with
  | nil =>
    intro L₂ _ _ h
    cases L₂ with
    | nil => exact List.Perm.refl []
    | cons p rest =>
      have hc := h p.1
      rw [lookupWorkout, lookupWorkout, if_pos rfl] at hc
      cases hc
  | cons p L₁' ih =>
    intro L₂ hnd₁ hnd₂ h
    rw [List.map_cons] at hnd₁
    have hnd₁' := List.nodup_cons.mp hnd₁
    have hl : lookupWorkout p.1 L₂ = some p.2 := by
      have := h p.1
      rw [lookupWorkout, if_pos rfl] at this
      exact this.symm
    have hmem : (p.1, p.2) ∈ L₂ := lookupWorkout_some_mem p.1 p.2 L₂ hl
    rw [Prod.mk.eta] at hmem
    obtain ⟨A, B, rfl⟩ := List.append_of_mem hmem
    have hkeys : ((A ++ p :: B).map Prod.fst).Nodup := hnd₂
    rw [List.map_append, List.map_cons] at hkeys
    have hsplit := List.nodup_append.mp hkeys
    have hpA : p.1 ∉ A.map Prod.fst := fun hc =>
      hsplit.2.2 hc (List.mem_cons_self _ _)
    have hpB : p.1 ∉ B.map Prod.fst := (List.nodup_cons.mp hsplit.2.1).1
    have hndAB : ((A ++ B).map Prod.fst).Nodup := by
      rw [List.map_append]
      exact List.nodup_append.mpr
        ⟨hsplit.1, (List.nodup_cons.mp hsplit.2.1).2,
          fun a ha hb => hsplit.2.2 ha (List.mem_cons_of_mem _ hb)⟩
    have htail : L₁'.Perm (A ++ B) := by
      apply ih (A ++ B) hnd₁'.2 hndAB
      intro d
      by_cases hd : d = p.1
      · have h₁ : lookupWorkout d L₁' = none := by
          rw [hd]
          exact lookupWorkout_eq_none_of_not_mem p.1 L₁' hnd₁'.1
        have h₂ : lookupWorkout d (A ++ B) = none := by
          rw [hd]
          refine lookupWorkout_eq_none_of_not_mem p.1 (A ++ B) ?_
          rw [List.map_append]
          intro hc
          rcases List.mem_append.mp hc with hc | hc
          · exact hpA hc
          · exact hpB hc
        rw [h₁, h₂]
      · have hstep := h d
        rw [lookupWorkout, if_neg (fun hc => hd hc.symm)] at hstep
        rw [hstep]
        exact lookupWorkout_append_middle d p (fun hc => hd hc.symm) B A
    exact (htail.cons p).trans List.perm_middle.symm

theorem eq_of_perm_sorted_dates :
    ∀ {l₁ l₂ : List Workout}, l₁.Perm l₂ →
      List.Sorted dateDesc l₁ → List.Sorted dateDesc l₂ →
      (l₁.map Workout.date).Nodup → l₁ = l₂ := by
  intro l₁
  induction l₁ with
  | nil =>
    intro l₂ hp _ _ _
    exact (hp.symm.eq_nil).symm
  | cons a t₁ ih =>
    intro l₂ hp hs₁ hs₂ hnd
    cases l₂ with
    | nil => cases hp.eq_nil
    | cons b t₂ =>
      rw [List.map_cons] at hnd
      have hnd' := List.nodup_cons.mp hnd
      have hab : a = b := by
        have hain : a ∈ b :: t₂ := hp.subset (List.mem_cons_self _ _)
        rcases List.mem_cons.mp hain with h | h
        · exact h
        · have h1 : dateDesc b a := List.rel_of_sorted_cons hs₂ a h
          have hbin : b ∈ a :: t₁ := hp.symm.subset (List.mem_cons_self _ _)
          rcases List.mem_cons.mp hbin with h' | h'
          · exact h'.symm
          · have h2 : dateDesc a b := List.rel_of_sorted_cons hs₁ b h'
            have hdate : a.date = b.date := le_antisymm h1 h2
            exact absurd (hdate ▸ List.mem_map_of_mem Workout.date h')
              hnd'.1
      subst hab
      have htail := ih hp.cons_inv (List.sorted_cons.mp hs₁).2
        (List.sorted_cons.mp hs₂).2 hnd'.2
      rw [htail]

theorem wellFormed_dates_nodup (s : StoreState) (h : WorkoutsWellFormed s) :
    ((s.workouts.map Prod.snd).map Workout.date).Nodup := by
  have heq : (s.workouts.map Prod.snd).map Workout.date =
      s.workouts.map Prod.fst := by
    rw [List.map_map]
    exact List.map_congr_left (fun p hp => (h.1 p hp).symm)
  rw [heq]
  exact h.2

/-- C4: `getAllWorkouts` returns the stored workouts (a permutation of the
directory's contents) sorted by date string in descending order, and
`getLastWorkout` is the head of that sorted list (`null` when there are no
workouts).  The output is independent of the order in which `finish()` was
called: finishing the same set of workouts (distinct dates) in any two
orders over a well-formed store yields identical `getAllWorkouts`
results. -/
theorem getAllWorkouts_sorted_any_order (s : StoreState) :
    List.Sorted dateDesc (getAllWorkouts s) ∧
    (getAllWorkouts s).Perm (s.workouts.map Prod.snd) ∧
    getLastWorkout s = (getAllWorkouts s).head? ∧
    (s.workouts = [] → getLastWorkout s = none) ∧
    (∀ l₁ l₂, l₁.Perm l₂ → (l₁.map Workout.date).Nodup →
      WorkoutsWellFormed s →
      getAllWorkouts (finishAll l₁ s) = getAllWorkouts (finishAll l₂ s)) := by
  refine ⟨List.sorted_insertionSort _ _, List.perm_insertionSort _ _, rfl,
    ?_, ?_⟩
  · intro h
    simp [getLastWorkout, getAllWorkouts, h]
  · intro l₁ l₂ hperm hnd hwf
    have hwf₁ := finishAll_wellFormed l₁ s hwf
    have hwf₂ := finishAll_wellFormed l₂ s hwf
    have hlook : ∀ d, lookupWorkout d (finishAll l₁ s).workouts =
        lookupWorkout d (finishAll l₂ s).workouts := by
      intro d
      rw [lookup_finishAll d l₁ s, lookup_finishAll d l₂ s]
      have hfeq : l₁.filter (fun w => w.date == d) =
          l₂.filter (fun w => w.date == d) :=
        perm_eq_of_length_le_one (hperm.filter _)
          (filter_date_length_le_one d l₁ hnd)
      rw [hfeq]
    have hwperm : (finishAll l₁ s).workouts.Perm (finishAll l₂ s).workouts :=
      assoc_perm_of_lookup_eq _ _ hwf₁.2 hwf₂.2 hlook
    apply eq_of_perm_sorted_dates
    · exact (List.perm_insertionSort _ _).trans
        ((hwperm.map Prod.snd).trans (List.perm_insertionSort _ _).symm)
    · exact List.sorted_insertionSort _ _
    · exact List.sorted_insertionSort _ _
    · have hd₁ := wellFormed_dates_nodup _ hwf₁
      have hp := List.Perm.map Workout.date
        (List.perm_insertionSort dateDesc
          ((finishAll l₁ s).workouts.map Prod.snd))
      exact (hp.nodup_iff).mpr hd₁

/-- C4 (witness): finishing workouts dated 2024-01-01 and 2024-01-02 in
either order yields the same `getAllWorkouts` result, and the last workout
of an empty store is `null`. -/
theorem getAllWorkouts_sorted_any_order_witness :
    getAllWorkouts
        (finishAll
          [⟨"2024-01-01-a", "2024-01-01", none, "t0", none, [], [], none⟩,
           ⟨"2024-01-02-b", "2024-01-02", none, "t0", none, [], [], none⟩]
          ⟨⟨.lbs, "~/.workout"⟩, [], [], none, []⟩) =
      getAllWorkouts
        (finishAll
          [⟨"2024-01-02-b", "2024-01-02", none, "t0", none, [], [], none⟩,
           ⟨"2024-01-01-a", "2024-01-01", none, "t0", none, [], [], none⟩]
          ⟨⟨.lbs, "~/.workout"⟩, [], [], none, []⟩) ∧
    getLastWorkout ⟨⟨.lbs, "~/.workout"⟩, [], [], none, []⟩ = none := by
  have h := getAllWorkouts_sorted_any_order
    ⟨⟨.lbs, "~/.workout"⟩, [], [], none, []⟩
  refine ⟨h.2.2.2.2 _ _ ?_ ?_ ?_, h.2.2.2.1 rfl⟩
  · exact List.Perm.swap _ _ _
  · decide
  · constructor
    · intro p hp
      cases hp
    · simp

end WorkoutCLI
